import Mathlib

/-!
Verification development for the toolchain-configuration distribution core of
the remoteexec proxy (package `command` in `cmd/remoteexec_proxy/main.go`).

The Go code is shallowly embedded: pure string/path helpers from the Go
standard library (`strings.Index`, `strings.HasPrefix`, `path.Base`,
`path.Dir`, `path.Clean`, `path.Join`) are translated to Lean functions on
`List Char` (Go strings are modelled as their character sequences; all names
involved are ASCII, where Go's byte indexing and char indexing agree);
storage / network I/O is passed in as explicit oracle data (result values),
and stateful code (the `ConfigStore`) is explicit state passing on an
association list with no duplicate keys, matching a Go map observed through
the sorted `List`/`ConfigResp` accessors.
-/

namespace GomaCommand

/-! ## Go standard-library string helpers, on `List Char` -/

/-- Go `strings.HasPrefix(s, pre)`. -/
def goHasPrefix (s pre : List Char) : Bool :=
  pre.isPrefixOf s

/-- Go `strings.Index(s, sub)`: index of the first occurrence of `sub` in
`s`, or `none` for Go's `-1`. -/
def goIndex (sub : List Char) : List Char → Option Nat
  | [] => if sub.isPrefixOf ([] : List Char) then some 0 else none
  | c :: t =>
    if sub.isPrefixOf (c :: t) then some 0
    else (goIndex sub t).map (· + 1)

/-- Go `path.Base(p)`: last element of the path after stripping trailing
slashes; `"."` for the empty path, `"/"` for an all-slash path. -/
def pathBase (p : List Char) : List Char :=
  if p.isEmpty then ['.']
  else
    let r := (p.reverse.dropWhile (fun c => c = '/')).takeWhile (fun c => c ≠ '/')
    if r.isEmpty then ['/'] else r.reverse

/-- One step of Go `path.Clean`'s element processing, on a reversed stack of
already-emitted path elements: `".."` pops a non-`".."` top, is dropped at
the root of a rooted path, and is kept otherwise. -/
def cleanStep (rooted : Bool) (st : List (List Char)) (c : List Char) :
    List (List Char) :=
  if c = ['.', '.'] then
    match st with
    | top :: rest => if top = ['.', '.'] then c :: st else rest
    | [] => if rooted then [] else [c]
  else c :: st

/-- Go `path.Clean(p)`: collapse repeated slashes, drop `.` elements,
resolve `..` against preceding elements (and against the root for rooted
paths); the empty result becomes `"."`. -/
def pathClean (p : List Char) : List Char :=
  if p.isEmpty then ['.']
  else
    let rooted := p.head? == some '/'
    let comps := (p.splitOn '/').filter
      (fun c => !c.isEmpty && c != ['.'])
    let stack := comps.foldl (cleanStep rooted) []
    let joined := List.intercalate ['/'] stack.reverse
    let res := (if rooted then ['/'] else []) ++ joined
    if res.isEmpty then ['.'] else res

/-- Go `path.Dir(p)`: everything up to and including the final slash,
cleaned (so `"."` when `p` has no slash). -/
def pathDir (p : List Char) : List Char :=
  pathClean (p.take (p.length - (p.reverse.takeWhile (fun c => c ≠ '/')).length))

/-- Go `path.Join(elems...)`: join the non-empty elements with slashes and
clean the result ( `[]` when every element is empty; empty elements inside
the join collapse under `Clean`, so filtering them first is equivalent). -/
def pathJoin (elems : List (List Char)) : List Char :=
  let ne := elems.filter (fun e => !e.isEmpty)
  if ne.isEmpty then [] else pathClean (List.intercalate ['/'] ne)

/-! ## Data model (`cmdpb` protos, fields as used by this package) -/

/-- `cmdpb.Platform_Property`. -/
structure Platform_Property where
  name : List Char
  value : List Char
deriving DecidableEq

/-- `cmdpb.Platform` (the fields this package reads). -/
structure Platform where
  properties : List Platform_Property
deriving DecidableEq

/-- `cmdpb.RemoteexecPlatform_Property`. -/
structure RemoteexecPlatform_Property where
  name : List Char
  value : List Char
deriving DecidableEq

/-- `cmdpb.RemoteexecPlatform`. -/
structure RemoteexecPlatform where
  properties : List RemoteexecPlatform_Property
  hasNsjail : Bool
deriving DecidableEq

/-- `cmdpb.Selector`: identifying tuple of a command variant. -/
structure Selector where
  name : List Char
  version : List Char
  target : List Char
  binaryHash : List Char
deriving DecidableEq

/-- `cmdpb.CmdDescriptor_PathType`. -/
inductive PathType where
  | UNKNOWN_PATH_TYPE
  | POSIX
  | WINDOWS
deriving DecidableEq

/-- `cmdpb.CmdDescriptor_Setup` (the field this package reads). -/
structure CmdSetup where
  pathType : PathType
deriving DecidableEq

/-- `cmdpb.CmdDescriptor` (the fields this package reads); `Option` models
Go's nil message pointers. -/
structure CmdDescriptor where
  selector : Option Selector
  setup : Option CmdSetup
deriving DecidableEq

/-- `cmdpb.ACL`: carried through uninspected by this package, modelled as an
opaque token. -/
structure ACL where
  raw : List Char
deriving DecidableEq

/-- `cmdpb.PlatformRuntimeConfig` (the fields this package reads). -/
structure PlatformRuntimeConfig where
  dimensions : List (List Char)
  hasNsjail : Bool
deriving DecidableEq

/-- `cmdpb.RuntimeConfig` (the fields this package reads). -/
structure RuntimeConfig where
  name : List Char
  serviceAddr : List Char
  platform : Option Platform
  platformRuntimeConfig : Option PlatformRuntimeConfig
  allowedPrebuilts : List (List Char)
  disallowedPrebuilts : List (List Char)
  disallowedCommands : List Selector
  acl : Option ACL
deriving DecidableEq

/-- `cmdpb.Target`. -/
structure Target where
  addr : List Char
deriving DecidableEq

/-- `cmdpb.BuildInfo`; the `timestamppb` timestamp is modelled as a `Nat`. -/
structure BuildInfo where
  timestamp : Nat
deriving DecidableEq

/-- `cmdpb.Config`: one resolved config record. -/
structure Config where
  target : Option Target
  buildInfo : Option BuildInfo
  cmdDescriptor : Option CmdDescriptor
  remoteexecPlatform : Option RemoteexecPlatform
  dimensions : List (List Char)
  acl : Option ACL
deriving DecidableEq

/-- `cmdpb.ConfigResp`. -/
structure ConfigResp where
  versionId : List Char
  configs : List Config
deriving DecidableEq

/-- `cmdpb.ConfigMap` (the fields this package reads). -/
structure ConfigMapProto where
  runtimes : List RuntimeConfig
deriving DecidableEq

/-! ## Validation helpers (`checkPrebuilt`, `checkSelector`) -/

/-- `checkPrebuilt(rc, objName)`: `true` iff the Go function returns a nil
error. The prebuilt name is the `path.Base` of the object-name prefix before
the first occurrence of `"/descriptors"`; it must match no disallowed
prefix, and, when the allow list is non-empty, some allowed prefix. -/
def checkPrebuilt (rc : RuntimeConfig) (objName : List Char) : Bool :=
  match goIndex "/descriptors".data objName with
  | none => false
  | some i =>
    let prebuiltName := pathBase (objName.take i)
    if rc.disallowedPrebuilts.any (fun pre => goHasPrefix prebuiltName pre) then
      false
    else if rc.allowedPrebuilts.isEmpty then
      true
    else
      rc.allowedPrebuilts.any (fun pre => goHasPrefix prebuiltName pre)

/-- `checkSelector(rc, sel)`: `true` iff the Go function returns a nil
error. A nil selector is an error; otherwise each disallowed-command entry
denies on any of its non-empty fields equalling the selector's
corresponding field. -/
def checkSelector (rc : RuntimeConfig) (sel : Option Selector) : Bool :=
  match sel with
  | none => false
  | some sel =>
    !(rc.disallowedCommands.any (fun s =>
      (!s.name.isEmpty && s.name == sel.name) ||
      (!s.version.isEmpty && s.version == sel.version) ||
      (!s.target.isEmpty && s.target == sel.target) ||
      (!s.binaryHash.isEmpty && s.binaryHash == sel.binaryHash)))

/-- `mergePlatformProperties(rbePlatform, platform)`: append to
`rbePlatform.properties` those of `platform`'s properties whose name is not
among the names `rbePlatform.properties` held on entry. -/
def mergePlatformProperties (rbePlatform : RemoteexecPlatform)
    (platform : Option Platform) : RemoteexecPlatform :=
  match platform with
  | none => rbePlatform
  | some platform =>
    let m := rbePlatform.properties.map (fun p => p.name)
    { rbePlatform with
      properties := platform.properties.foldl
        (fun acc p =>
          if m.contains p.name then acc
          else acc ++ [{ name := p.name, value := p.value }])
        rbePlatform.properties }

/-! ## GCS path splitting and the descriptor fetcher (`loadConfigs`) -/

/-- `splitGCSPath(uri)`: bucket and object prefix of a `gs://` URI. -/
def splitGCSPath (uri : List Char) :
    Except (List Char) (List Char × List Char) :=
  if goHasPrefix uri "gs://".data then
    let rest := uri.drop 5
    match goIndex ['/'] rest with
    | none => .ok (rest, [])
    | some i => .ok (rest.take i, rest.drop (i + 1))
  else
    .error ("not gs: URI: ".data ++ uri)

/-- `storage.ObjectAttrs` (the fields this package reads); the `Updated`
time is modelled as a `Nat`. -/
structure ObjAttrs where
  name : List Char
  updated : Nat
deriving DecidableEq

/-- The per-object filter applied while iterating the listing in
`loadConfigs`: `checkPrebuilt` must pass, then the object's parent
directory must be literally `"descriptors"`. -/
def survivesFilter (rc : RuntimeConfig) (a : ObjAttrs) : Bool :=
  checkPrebuilt rc a.name && (pathBase (pathDir a.name) == "descriptors".data)

/-- The `attrsList` built by `loadConfigs` from the storage listing (the
listing itself is oracle data: the objects the iterator yields, in
iteration order). -/
def filterListing (rc : RuntimeConfig) (listing : List ObjAttrs) :
    List ObjAttrs :=
  listing.filter (survivesFilter rc)

/-- Body of one `loadConfigs` worker for the object at `a`: fetch and parse
the descriptor (`loadDescriptor`, whose combined I/O-plus-unmarshal outcome
is the oracle `desc`), then drop the slot (ok `none`) on a denied selector,
missing setup, or unknown path type, and otherwise produce the record for
this slot. A fetch/parse failure is the worker's error. -/
def workerResult (desc : List Char → Except (List Char) CmdDescriptor)
    (rc : RuntimeConfig) (platform : RemoteexecPlatform) (a : ObjAttrs) :
    Except (List Char) (Option Config) :=
  match desc a.name with
  | .error e => .error e
  | .ok d =>
    if !checkSelector rc d.selector then .ok none
    else
      match d.setup with
      | none => .ok none
      | some setup =>
        if setup.pathType = PathType.UNKNOWN_PATH_TYPE then .ok none
        else
          .ok (some
            { target := some { addr := rc.serviceAddr }
              buildInfo := some { timestamp := a.updated }
              cmdDescriptor := some d
              remoteexecPlatform := some platform
              dimensions := []
              acl := rc.acl })

/-- True iff the worker for `a` fails with a fetch/parse error. -/
def workerErrored (desc : List Char → Except (List Char) CmdDescriptor)
    (rc : RuntimeConfig) (platform : RemoteexecPlatform) (a : ObjAttrs) :
    Bool :=
  match workerResult desc rc platform a with
  | .error _ => true
  | .ok _ => false

/-- The slot content the worker for `a` leaves behind on success (`none`
for a dropped record, and also while the worker failed, in which case the
batch result is discarded anyway). -/
def slotOf (desc : List Char → Except (List Char) CmdDescriptor)
    (rc : RuntimeConfig) (platform : RemoteexecPlatform) (a : ObjAttrs) :
    Option Config :=
  match workerResult desc rc platform a with
  | .error _ => none
  | .ok o => o

/-- First worker error in index order: with concurrency 1 the workers run
in listing order, so this is the error `errgroup.Wait` reports. -/
def firstWorkerError (desc : List Char → Except (List Char) CmdDescriptor)
    (rc : RuntimeConfig) (platform : RemoteexecPlatform)
    (attrsList : List ObjAttrs) : Option (List Char) :=
  attrsList.findSome? (fun a =>
    match workerResult desc rc platform a with
    | .error e => some e
    | .ok _ => none)

/-- `loadConfigs(client, uri, rc, platform, parallel)` at concurrency 1:
split the URI, filter the listing, run every worker, fail the batch on the
first worker error, otherwise compact the slots in listing order. -/
def loadConfigs (desc : List Char → Except (List Char) CmdDescriptor)
    (uri : List Char) (rc : RuntimeConfig) (platform : RemoteexecPlatform)
    (listing : List ObjAttrs) : Except (List Char) (List Config) :=
  match splitGCSPath uri with
  | .error e => .error e
  | .ok _ =>
    let attrsList := filterListing rc listing
    match firstWorkerError desc rc platform attrsList with
    | some e => .error e
    | none => .ok (attrsList.filterMap (slotOf desc rc platform))

/-- Slot array after the workers commit their writes in the order `order`
(each worker `i` writes only slot `i`, with a value that is a pure function
of `i`). -/
def writeSlots (work : Nat → Option Config) (init : List (Option Config)) :
    List Nat → List (Option Config)
  | [] => init
  | i :: rest => writeSlots work (init.set i (work i)) rest

/-- The pure per-index worker function over the filtered listing. -/
def workOf (desc : List Char → Except (List Char) CmdDescriptor)
    (rc : RuntimeConfig) (platform : RemoteexecPlatform)
    (attrsList : List ObjAttrs) (i : Nat) : Option Config :=
  match attrsList.get? i with
  | none => none
  | some a => slotOf desc rc platform a

/-- `loadConfigs` under concurrent execution: the workers' slot writes
commit in an arbitrary interleaving `order` (a permutation of the slot
indices); if any worker failed, `errgroup.Wait` reports some error and the
slots are discarded (`none`), otherwise the committed slots are compacted
in index order. -/
def loadConfigsPar (desc : List Char → Except (List Char) CmdDescriptor)
    (uri : List Char) (rc : RuntimeConfig) (platform : RemoteexecPlatform)
    (listing : List ObjAttrs) (order : List Nat) : Option (List Config) :=
  match splitGCSPath uri with
  | .error _ => none
  | .ok _ =>
    let attrsList := filterListing rc listing
    if attrsList.any (workerErrored desc rc platform) then none
    else
      some ((writeSlots (workOf desc rc platform attrsList)
        (List.replicate attrsList.length none) order).filterMap id)

/-! ## ConfigStore -/

/-- The value of one `ConfigStore.lastConfigs` entry (Go struct
`configs`). -/
structure StoreConfigs where
  seq : List Char
  configs : List Config
deriving DecidableEq

instance : Inhabited StoreConfigs := ⟨⟨[], []⟩⟩

/-- `ConfigStore.lastConfigs`: a Go map modelled as an association list
with no duplicate keys. -/
abbrev Store := List (List Char × StoreConfigs)

/-- Go byte-wise string comparison (`s <= t`), used by `sort.Strings`. -/
def goStrLe : List Char → List Char → Bool
  | [], _ => true
  | _ :: _, [] => false
  | a :: s, b :: t => if a = b then goStrLe s t else decide (a < b)

/-- Map lookup on the store (the key occurs at most once). -/
def storeLookup : Store → List Char → Option StoreConfigs
  | [], _ => none
  | e :: rest, n => if e.1 = n then some e.2 else storeLookup rest n

/-- `ConfigStore.Seq(name)`: the seq of `name`'s entry, `""` when absent
(Go's zero value for a missing map key). -/
def storeSeq (s : Store) (n : List Char) : List Char :=
  match storeLookup s n with
  | none => []
  | some c => c.seq

/-- Insertion into a sorted list of Go strings. -/
def insertSorted (x : List Char) : List (List Char) → List (List Char)
  | [] => [x]
  | y :: rest =>
    if goStrLe x y then x :: y :: rest else y :: insertSorted x rest

/-- `sort.Strings`: insertion sort under the byte-wise order (the sorted
sequence of names is unique, so the algorithm is immaterial). -/
def sortStrings (l : List (List Char)) : List (List Char) :=
  l.foldr insertSorted []

/-- `ConfigStore.List()`: the store's keys, sorted. -/
def storeList (s : Store) : List (List Char) :=
  sortStrings (s.map Prod.fst)

/-- `ConfigStore.Set(name, seq, confs)`: a Go map write, on the
association list: replace the entry when the key exists, append it
otherwise. -/
def storeSet : Store → List Char → StoreConfigs → Store
  | [], n, v => [(n, v)]
  | e :: rest, n, v =>
    if e.1 = n then (n, v) :: rest else e :: storeSet rest n v

/-- `ConfigStore.Delete(name)`: a Go map delete. -/
def storeDelete : Store → List Char → Store
  | [], _ => []
  | e :: rest, n =>
    if e.1 = n then storeDelete rest n else e :: storeDelete rest n

/-- `ConfigStore.ConfigResp()`: fresh version id (oracle data: the current
time string), plus every stored runtime's records concatenated in sorted
runtime-name order. -/
def configRespOf (versionId : List Char) (s : Store) : ConfigResp :=
  { versionId := versionId
    configs := (storeList s).foldl
      (fun acc n =>
        acc ++ (match storeLookup s n with
          | none => []
          | some c => c.configs))
      [] }

/-! ## The reconciler (`ConfigMapLoader.Load`) -/

/-- Error result of `ConfigMapLoader.Load`: the sentinel `ErrNoUpdate` or
an ordinary error message. -/
inductive LoadErr where
  | noUpdate
  | err (msg : List Char)
deriving DecidableEq

/-- Result data of the `ConfigMap` interface calls made during one `Load`
pass (`Seqs`, `Bucket`, `RuntimeConfigs`); the two Go maps are association
lists with no duplicate keys. -/
structure ConfigMapSource where
  seqs : Except (List Char) (List (List Char × List Char))
  bucket : Except (List Char) (List Char)
  runtimeConfigs : Except (List Char) (List (List Char × RuntimeConfig))

/-- The `updated` set computed by `Load`: the fetched pairs whose seq
differs from the store's recorded seq for that name (absent entries record
`""`), in fetched order. -/
def loadUpdated (store : Store) (seqs : List (List Char × List Char)) :
    List (List Char × List Char) :=
  seqs.filter (fun e => storeSeq store e.1 != e.2)

/-- The `deleted` set computed by `Load`: the stored names absent from the
fetched seq map. -/
def loadDeleted (store : Store) (seqs : List (List Char × List Char)) :
    List (List Char) :=
  (storeList store).filter (fun n => !(seqs.any (fun e => e.1 == n)))

/-- Map lookup in the runtime-metadata map. -/
def rcLookup (rcs : List (List Char × RuntimeConfig)) (n : List Char) :
    Option RuntimeConfig :=
  (rcs.find? (fun e => e.1 == n)).map Prod.snd

/-- The `gs://<bucket>/<name>` URI `Load` passes to the config loader. -/
def gsUri (bucket name : List Char) : List Char :=
  "gs://".data ++ bucket ++ ['/'] ++ name

/-- The update loop of `Load` over the `updated` pairs: abort when a name
has no runtime metadata, skip (leaving the store untouched) when its
service address is empty, otherwise load its configs (`ConfigLoader.Load`,
whose outcome is the oracle `loadConf`) and `Set` the store entry; a load
error aborts with the store mutated so far (the Go store is mutated in
place). Go iterates the `updated` map in unspecified order; this model
fixes fetched order. -/
def processUpdates
    (loadConf : List Char → RuntimeConfig → Except (List Char) (List Config))
    (bucket : List Char) (rcs : List (List Char × RuntimeConfig)) :
    Store → List (List Char × List Char) → Store × Option LoadErr
  | store, [] => (store, none)
  | store, (name, seq) :: rest =>
    match rcLookup rcs name with
    | none =>
      (store,
        some (.err ("runtime config ".data ++ name ++ " not found".data)))
    | some runtime =>
      if runtime.serviceAddr.isEmpty then
        processUpdates loadConf bucket rcs store rest
      else
        match loadConf (gsUri bucket name) runtime with
        | .error e => (store, some (.err e))
        | .ok confs =>
          processUpdates loadConf bucket rcs
            (storeSet store name { seq := seq, configs := confs }) rest

/-- `ConfigMapLoader.Load(ctx, force)`: diff fetched seqs against the
store, return `ErrNoUpdate` on an empty diff without force, delete vanished
runtimes, then reload every updated runtime and answer the aggregated
response. Returns the result together with the (in-place mutated) store. -/
def ConfigMapLoader_Load (cm : ConfigMapSource)
    (loadConf : List Char → RuntimeConfig → Except (List Char) (List Config))
    (versionId : List Char) (store : Store) (force : Bool) :
    Except LoadErr ConfigResp × Store :=
  match cm.seqs with
  | .error e => (.error (.err e), store)
  | .ok seqs =>
    let updated := loadUpdated store seqs
    let deleted := loadDeleted store seqs
    if updated.isEmpty && deleted.isEmpty && !force then
      (.error .noUpdate, store)
    else
      let store1 := deleted.foldl storeDelete store
      match cm.bucket with
      | .error e => (.error (.err e), store1)
      | .ok bucket =>
        match cm.runtimeConfigs with
        | .error e => (.error (.err e), store1)
        | .ok rcs =>
          match processUpdates loadConf bucket rcs store1 updated with
          | (store2, some e) => (.error e, store2)
          | (store2, none) => (.ok (configRespOf versionId store2), store2)

/-! ## `ConfigMapBucket.Seqs` -/

/-- Outcome of one `storageReadAll` call: the object does not exist
(`storage.ErrObjectNotExist`), some other error, or the object's bytes. -/
inductive ReadResult where
  | notExist
  | readErr (msg : List Char)
  | content (buf : List Char)
deriving DecidableEq

/-- The loop of `ConfigMapBucket.Seqs` over the config map's runtimes:
read `<runtime-name>/seq`; a missing object is skipped, any other read
error fails the whole call, otherwise the runtime's seq is recorded. -/
def seqsLoop (read : List Char → ReadResult) :
    List RuntimeConfig → Except (List Char) (List (List Char × List Char))
  | [] => .ok []
  | r :: rest =>
    match read (pathJoin [r.name, "seq".data]) with
    | .notExist => seqsLoop read rest
    | .readErr e => .error e
    | .content buf =>
      match seqsLoop read rest with
      | .error e => .error e
      | .ok m => .ok ((r.name, buf) :: m)

/-- `ConfigMapBucket.Seqs(ctx)`: split the configured URI, then collect the
per-runtime seqs of the parsed config map `cm` (the `configMap(ctx)` read,
assumed successful) through the storage-read oracle `read`. -/
def ConfigMapBucket_Seqs (uri : List Char) (cm : ConfigMapProto)
    (read : List Char → ReadResult) :
    Except (List Char) (List (List Char × List Char)) :=
  match splitGCSPath uri with
  | .error e => .error e
  | .ok _ => seqsLoop read cm.runtimes

/-! ## Spec-side predicates (written from the spec's words, for comparison
with the code-side definitions) -/

/-- The prebuilt-item name as the claim about filtering reads it: the
directory two levels above the object. -/
def twoLevelsUp (objName : List Char) : List Char :=
  pathBase (pathDir (pathDir objName))

/-- Survival through the listing filter as originally claimed: the parent
directory is literally `"descriptors"`, and the directory two levels above
the object matches no deny-list prefix and, when the allow-list is
non-empty, matches at least one allow-list prefix. -/
def claimSurvives (rc : RuntimeConfig) (a : ObjAttrs) : Prop :=
  pathBase (pathDir a.name) = "descriptors".data ∧
  (∀ pre ∈ rc.disallowedPrebuilts, goHasPrefix (twoLevelsUp a.name) pre = false) ∧
  (rc.allowedPrebuilts ≠ [] →
    ∃ pre ∈ rc.allowedPrebuilts, goHasPrefix (twoLevelsUp a.name) pre = true)

instance (rc : RuntimeConfig) (a : ObjAttrs) : Decidable (claimSurvives rc a) := by
  unfold claimSurvives
  infer_instance

/-- The prebuilt-item name as the code extracts it: the base name of the
object-name prefix preceding the first occurrence of `"/descriptors"`
(none when that substring does not occur). -/
def prebuiltNameOf (objName : List Char) : Option (List Char) :=
  (goIndex "/descriptors".data objName).map (fun i => pathBase (objName.take i))

/-- Survival through the listing filter as amended: the parent directory is
literally `"descriptors"`, the substring `"/descriptors"` occurs in the
object name, and the prebuilt-item name extracted at its first occurrence
matches no deny-list prefix and, when the allow-list is non-empty, at least
one allow-list prefix. -/
def amendedSurvives (rc : RuntimeConfig) (a : ObjAttrs) : Prop :=
  pathBase (pathDir a.name) = "descriptors".data ∧
  ∃ pn, prebuiltNameOf a.name = some pn ∧
    (∀ pre ∈ rc.disallowedPrebuilts, goHasPrefix pn pre = false) ∧
    (rc.allowedPrebuilts ≠ [] →
      ∃ pre ∈ rc.allowedPrebuilts, goHasPrefix pn pre = true)

/-! ## Concrete instances used by counterexamples and witnesses -/

/-- A runtime config with every list empty and a non-empty address. -/
def rcBase : RuntimeConfig :=
  { name := "rt".data
    serviceAddr := "addr".data
    platform := none
    platformRuntimeConfig := none
    allowedPrebuilts := []
    disallowedPrebuilts := []
    disallowedCommands := []
    acl := none }

/-- Deny-list entry that names only a toolchain name and version. -/
def rcDenyGcc1 : RuntimeConfig :=
  { rcBase with
    disallowedCommands :=
      [{ name := "gcc".data, version := "1".data, target := [], binaryHash := [] }] }

/-- A selector that shares only the name with the deny-list entry of
`rcDenyGcc1`. -/
def selGcc2 : Selector :=
  { name := "gcc".data, version := "2".data, target := "x64".data,
    binaryHash := "hh".data }

/-- Runtime config denying the prebuilt-name prefix `"descriptorsz"`. -/
def rcDenyPrebuilt : RuntimeConfig :=
  { rcBase with disallowedPrebuilts := ["descriptorsz".data] }

/-- Object whose directory two levels up is `"descriptorsz"` but whose
first `"/descriptors"` occurrence is earlier in the name. -/
def objTricky : ObjAttrs :=
  { name := "p/descriptorsz/descriptors/h".data, updated := 3 }

/-- A config loader oracle that always succeeds with no records. -/
def lcNull : List Char → RuntimeConfig → Except (List Char) (List Config) :=
  fun _ _ => .ok []

/-- Runtime config named `"r"` whose service address is empty. -/
def rcEmptyAddr : RuntimeConfig :=
  { rcBase with name := "r".data, serviceAddr := [] }

/-- Config-map source whose only runtime `"r"` (seq `"1"`) resolves to an
empty service address. -/
def cmEmptyAddr : ConfigMapSource :=
  { seqs := .ok [("r".data, "1".data)]
    bucket := .ok "b".data
    runtimeConfigs := .ok [("r".data, rcEmptyAddr)] }

/-- Runtime config named `"r"` with a non-empty service address. -/
def rcNamedR : RuntimeConfig := { rcBase with name := "r".data }

/-- Config-map source whose only runtime `"r"` (seq `"1"`) resolves to a
usable service address. -/
def cmGood : ConfigMapSource :=
  { cmEmptyAddr with runtimeConfigs := .ok [("r".data, rcNamedR)] }

/-- Config-map source fetching only the new runtime `"r"` with an empty
sequence token. -/
def cmNewEmptySeq : ConfigMapSource :=
  { cmEmptyAddr with seqs := .ok [("r".data, [])] }

/-- Store holding runtimes `"gone"` and `"r"`. -/
def storeGoneR : Store :=
  [("gone".data, { seq := "9".data, configs := [] }),
   ("r".data, { seq := "1".data, configs := [] })]

/-- Config-map source fetching only `"r"` at its stored token (so `"gone"`
has vanished). -/
def cmDropGone : ConfigMapSource :=
  { cmEmptyAddr with seqs := .ok [("r".data, "1".data)] }

/-- Config-map source for the metadata-handling witness: runtime `"miss"`
is fetched at a new token but has no runtime metadata. -/
def cmMissingMeta : ConfigMapSource :=
  { seqs := .ok [("miss".data, "1".data)]
    bucket := .ok "b".data
    runtimeConfigs := .ok [] }

/-- `true` on a successful `Load` result. -/
def isOkResult : Except LoadErr ConfigResp × Store → Bool
  | (.ok _, _) => true
  | (.error _, _) => false

/-- The selector of the well-formed test descriptors. -/
def selClang : Selector :=
  { name := "clang".data, version := "3".data, target := "t".data,
    binaryHash := "b".data }

/-- A descriptor accepted by every filter: a selector, a setup with a
known path type. -/
def descGood : CmdDescriptor :=
  { selector := some selClang
    setup := some { pathType := PathType.POSIX } }

/-- A descriptor with no setup information (recoverable validation
failure). -/
def descNoSetup : CmdDescriptor :=
  { selector := some selClang
    setup := none }

/-- Descriptor-fetch oracle: the object `"rt/a/descriptors/h1"` parses to
`descGood`, `"rt/a/descriptors/h2"` to `descNoSetup`, and anything else
fails with an I/O error. -/
def descOracle : List Char → Except (List Char) CmdDescriptor :=
  fun name =>
    if name = "rt/a/descriptors/h1".data then .ok descGood
    else if name = "rt/a/descriptors/h2".data then .ok descNoSetup
    else .error ("load failed".data)

/-- A two-object listing under `"rt/a/descriptors"`. -/
def listingTwo : List ObjAttrs :=
  [{ name := "rt/a/descriptors/h1".data, updated := 1 },
   { name := "rt/a/descriptors/h2".data, updated := 2 }]

/-- A listing that also contains an object whose fetch fails. -/
def listingBad : List ObjAttrs :=
  listingTwo ++ [{ name := "rt/a/descriptors/h3".data, updated := 3 }]

/-- An empty remoteexec platform. -/
def platformNone : RemoteexecPlatform :=
  { properties := [], hasNsjail := false }

/-- `true` exactly on the `ErrNoUpdate` result. -/
def isNoUpdate : Except LoadErr ConfigResp → Bool
  | .error .noUpdate => true
  | _ => false

/-- Runtime config named `"alive"`. -/
def rtAlive : RuntimeConfig := { rcBase with name := "alive".data }

/-- Runtime config named `"dead"`. -/
def rtDead : RuntimeConfig := { rcBase with name := "dead".data }

/-- Config-map proto with runtimes `"alive"` and `"dead"`. -/
def cmProtoTwo : ConfigMapProto :=
  { runtimes := [rtAlive, rtDead] }

/-- Store holding only the runtime `"dead"`. -/
def storeDead : Store :=
  [("dead".data, { seq := "9".data, configs := [] })]

/-- Config-map source carrying the seq map Seqs fetched from
`cmProtoTwo` through `readOracle` (the runtime `"dead"` is absent because
its seq object does not exist). -/
def cmSrcMissing : ConfigMapSource :=
  { seqs := .ok [("alive".data, "7".data)]
    bucket := .ok "b".data
    runtimeConfigs := .ok [] }

/-- Storage-read oracle: `"alive/seq"` holds `"7"`, `"dead/seq"` does not
exist, anything else is an I/O error. -/
def readOracle : List Char → ReadResult :=
  fun name =>
    if name = "alive/seq".data then .content "7".data
    else if name = "dead/seq".data then .notExist
    else .readErr "io".data

/-- The property-merge example's target platform, `[{OS, Linux}]`. -/
def platformOSLinux : RemoteexecPlatform :=
  { properties := [{ name := "OS".data, value := "Linux".data }]
    hasNsjail := false }

/-- The property-merge example's source platform,
`[{OS, Windows}, {ABI, x64}]`. -/
def platformOverlay : Platform :=
  { properties := [{ name := "OS".data, value := "Windows".data },
                   { name := "ABI".data, value := "x64".data }] }

/-- The property-merge example's expected result,
`[{OS, Linux}, {ABI, x64}]`. -/
def platformMerged : RemoteexecPlatform :=
  { properties := [{ name := "OS".data, value := "Linux".data },
                   { name := "ABI".data, value := "x64".data }]
    hasNsjail := false }

/-! ## Helper lemmas: store operations -/

theorem storeLookup_set_self (s : Store) (n : List Char) (v : StoreConfigs) :
    storeLookup (storeSet s n v) n = some v := by
  induction s with
  | nil => simp [storeSet, storeLookup]
  | cons e rest ih =>
    by_cases h : e.1 = n
    · simp [storeSet, h, storeLookup]
    · simp [storeSet, h, storeLookup, ih]

theorem storeLookup_set_ne (s : Store) (m n : List Char) (v : StoreConfigs)
    (h : m ≠ n) : storeLookup (storeSet s m v) n = storeLookup s n := by
  induction s with
  | nil => simp [storeSet, storeLookup, h]
  | cons e rest ih =>
    by_cases he : e.1 = m
    · simp [storeSet, he, storeLookup, h, Ne.symm h]
    · by_cases hn : e.1 = n
      · simp [storeSet, he, storeLookup, hn, Ne.symm h]
      · simp [storeSet, he, storeLookup, hn, ih]

theorem storeLookup_delete (s : Store) (m n : List Char) :
    storeLookup (storeDelete s m) n =
      if m = n then none else storeLookup s n := by
  induction s with
  | nil => simp [storeDelete, storeLookup]
  | cons e rest ih =>
    by_cases h : m = n
    · subst h
      by_cases he : e.1 = m
      · simpa [storeDelete, he] using ih
      · simp [storeDelete, he, storeLookup, ih]
    · by_cases he : e.1 = m
      · have hn : ¬ e.1 = n := fun hc => h (he ▸ hc)
        simp [storeDelete, he, storeLookup, hn, ih, h]
      · by_cases hn : e.1 = n
        · simp [storeDelete, he, storeLookup, hn, h, Ne.symm h]
        · simp [storeDelete, he, storeLookup, hn, ih, h]

theorem storeLookup_foldl_delete (dels : List (List Char)) (s : Store)
    (n : List Char) :
    storeLookup (dels.foldl storeDelete s) n =
      if n ∈ dels then none else storeLookup s n := by
  induction dels generalizing s with
  | nil => simp
  | cons d rest ih =>
    by_cases h : n ∈ rest
    · simp [List.foldl_cons, ih, h]
    · by_cases hd : d = n
      · simp [List.foldl_cons, ih, h, hd, storeLookup_delete]
      · have : ¬ n = d := fun hc => hd hc.symm
        simp [List.foldl_cons, ih, h, this, storeLookup_delete, hd]

theorem insertSorted_perm (x : List Char) (l : List (List Char)) :
    (insertSorted x l).Perm (x :: l) := by
  induction l with
  | nil => exact List.Perm.refl _
  | cons y rest ih =>
    rw [insertSorted]
    by_cases h : goStrLe x y = true
    · rw [if_pos h]
    · rw [if_neg h]
      exact (ih.cons y).trans (List.Perm.swap x y rest)

theorem sortStrings_perm (l : List (List Char)) :
    (sortStrings l).Perm l := by
  induction l with
  | nil => exact List.Perm.refl _
  | cons x rest ih =>
    exact (insertSorted_perm x (sortStrings rest)).trans (ih.cons x)

theorem storeList_mem (s : Store) (n : List Char) :
    n ∈ storeList s ↔ n ∈ s.map Prod.fst :=
  (sortStrings_perm (s.map Prod.fst)).mem_iff

theorem storeLookup_eq_none_iff (s : Store) (n : List Char) :
    storeLookup s n = none ↔ n ∉ s.map Prod.fst := by
  induction s with
  | nil => simp [storeLookup]
  | cons e rest ih =>
    by_cases h : e.1 = n
    · simp [storeLookup, h]
    · have h2 : ¬ n = e.1 := fun hc => h hc.symm
      simp [storeLookup, h, ih, h2]

theorem any_fst_iff {β : Type} [Nonempty β] (l : List (List Char × β)) (n : List Char) :
    (l.any (fun e => e.1 == n)) = true ↔ n ∈ l.map Prod.fst := by
  induction l with
  | nil => simp
  | cons e rest ih =>
    by_cases h : e.1 = n
    · simp [h]
    · have h2 : ¬ n = e.1 := fun hc => h hc.symm
      simp [h, h2, ih]

theorem nodup_fst_eq {β : Type} (l : List (List Char × β))
    (h : (l.map Prod.fst).Nodup) {n : List Char} {s t : β}
    (h1 : (n, s) ∈ l) (h2 : (n, t) ∈ l) : s = t := by
  induction l with
  | nil => cases h1
  | cons e rest ih =>
    rw [List.map_cons, List.nodup_cons] at h
    rcases List.mem_cons.mp h1 with h1e | hm1
    · rcases List.mem_cons.mp h2 with h2e | hm2
      · exact (Prod.ext_iff.mp (h1e.trans h2e.symm)).2
      · rw [← h1e] at h
        exact absurd (List.mem_map.mpr ⟨(n, t), hm2, rfl⟩) h.1
    · rcases List.mem_cons.mp h2 with h2e | hm2
      · rw [← h2e] at h
        exact absurd (List.mem_map.mpr ⟨(n, s), hm1, rfl⟩) h.1
      · exact ih h.2 hm1 hm2

/-! ## Helper lemmas: the update loop -/

theorem processUpdates_untouched
    (lc : List Char → RuntimeConfig → Except (List Char) (List Config))
    (b : List Char) (rcs : List (List Char × RuntimeConfig)) (st : Store)
    (l : List (List Char × List Char)) (n : List Char)
    (h : n ∉ l.map Prod.fst) :
    storeLookup (processUpdates lc b rcs st l).1 n = storeLookup st n := by
  induction l generalizing st with
  | nil => rfl
  | cons p rest ih =>
    rw [List.map_cons] at h
    have hp : p.1 ≠ n := fun hc => h (List.mem_cons.mpr (Or.inl hc.symm))
    have hr : n ∉ rest.map Prod.fst :=
      fun hc => h (List.mem_cons.mpr (Or.inr hc))
    rw [show (p = (p.1, p.2)) from rfl, processUpdates]
    cases rcLookup rcs p.1 with
    | none => rfl
    | some rt =>
      by_cases ha : rt.serviceAddr.isEmpty
      · simp only [ha, if_pos]
        exact ih _ hr
      · simp only [ha, if_neg, Bool.false_eq_true, not_false_eq_true]
        cases lc (gsUri b p.1) rt with
        | error e => rfl
        | ok confs =>
          rw [ih _ hr, storeLookup_set_ne _ _ _ _ hp]

theorem processUpdates_skip_untouched
    (lc : List Char → RuntimeConfig → Except (List Char) (List Config))
    (b : List Char) (rcs : List (List Char × RuntimeConfig)) (st : Store)
    (l : List (List Char × List Char)) (n : List Char) (rt : RuntimeConfig)
    (hrt : rcLookup rcs n = some rt) (ha : rt.serviceAddr.isEmpty = true) :
    storeLookup (processUpdates lc b rcs st l).1 n = storeLookup st n := by
  induction l generalizing st with
  | nil => rfl
  | cons p rest ih =>
    rw [show (p = (p.1, p.2)) from rfl, processUpdates]
    by_cases hp : p.1 = n
    · rw [hp, hrt]
      simp only [ha, if_pos]
      exact ih _
    · cases rcLookup rcs p.1 with
      | none => rfl
      | some rt2 =>
        by_cases ha2 : rt2.serviceAddr.isEmpty
        · simp only [ha2, if_pos]
          exact ih _
        · simp only [ha2, if_neg, Bool.false_eq_true, not_false_eq_true]
          cases lc (gsUri b p.1) rt2 with
          | error e => rfl
          | ok confs =>
            rw [ih _, storeLookup_set_ne _ _ _ _ hp]

theorem processUpdates_err_of_missing
    (lc : List Char → RuntimeConfig → Except (List Char) (List Config))
    (b : List Char) (rcs : List (List Char × RuntimeConfig)) (st : Store)
    (l : List (List Char × List Char)) (n s : List Char)
    (hmem : (n, s) ∈ l) (hmiss : rcLookup rcs n = none) :
    ∃ msg, (processUpdates lc b rcs st l).2 = some (.err msg) := by
  induction l generalizing st with
  | nil => cases hmem
  | cons p rest ih =>
    rw [show (p = (p.1, p.2)) from rfl, processUpdates]
    cases hr : rcLookup rcs p.1 with
    | none => exact ⟨_, rfl⟩
    | some rt =>
      have hp : (n, s) ∈ rest := by
        rcases List.mem_cons.mp hmem with he | hm
        · exfalso
          rw [show (n = p.1) from congrArg Prod.fst he] at hmiss
          rw [hmiss] at hr
          cases hr
        · exact hm
      by_cases ha : rt.serviceAddr.isEmpty
      · simp only [ha, if_pos]
        exact ih _ hp
      · simp only [ha, if_neg, Bool.false_eq_true, not_false_eq_true]
        cases lc (gsUri b p.1) rt with
        | error e => exact ⟨_, rfl⟩
        | ok confs => exact ih _ hp

theorem processUpdates_seq_of_ok
    (lc : List Char → RuntimeConfig → Except (List Char) (List Config))
    (b : List Char) (rcs : List (List Char × RuntimeConfig)) (st : Store)
    (l : List (List Char × List Char)) (st2 : Store)
    (hnd : (l.map Prod.fst).Nodup)
    (hok : processUpdates lc b rcs st l = (st2, none))
    (n s : List Char) (hmem : (n, s) ∈ l) :
    (∃ rt, rcLookup rcs n = some rt ∧ rt.serviceAddr.isEmpty = true) ∨
      storeSeq st2 n = s := by
  induction l generalizing st with
  | nil => cases hmem
  | cons p rest ih =>
    obtain ⟨pn, ps⟩ := p
    rw [List.map_cons, List.nodup_cons] at hnd
    rw [processUpdates] at hok
    rcases List.mem_cons.mp hmem with he | hm
    · have hn : n = pn := congrArg Prod.fst he
      have hs : s = ps := congrArg Prod.snd he
      subst hn
      subst hs
      cases hr : rcLookup rcs n with
      | none =>
        rw [hr] at hok
        exact absurd (congrArg Prod.snd hok) (by simp)
      | some rt =>
        rw [hr] at hok
        by_cases ha : rt.serviceAddr.isEmpty
        · exact Or.inl ⟨rt, rfl, ha⟩
        · right
          simp only [ha, if_neg, Bool.false_eq_true, not_false_eq_true] at hok
          cases hcs : lc (gsUri b n) rt with
          | error e =>
            rw [hcs] at hok
            exact absurd (congrArg Prod.snd hok) (by simp)
          | ok cs =>
            rw [hcs] at hok
            have hok2 : processUpdates lc b rcs
                (storeSet st n { seq := s, configs := cs }) rest =
                (st2, none) := hok
            have h1 : storeLookup (processUpdates lc b rcs
                (storeSet st n { seq := s, configs := cs }) rest).1 n =
                storeLookup (storeSet st n { seq := s, configs := cs }) n :=
              processUpdates_untouched lc b rcs _ rest n hnd.1
            rw [hok2] at h1
            rw [storeSeq, h1, storeLookup_set_self]
    · cases hr : rcLookup rcs pn with
      | none =>
        rw [hr] at hok
        exact absurd (congrArg Prod.snd hok) (by simp)
      | some rt =>
        rw [hr] at hok
        by_cases ha : rt.serviceAddr.isEmpty
        · simp only [ha, if_pos] at hok
          exact ih _ hnd.2 hok hm
        · simp only [ha, if_neg, Bool.false_eq_true, not_false_eq_true] at hok
          cases hcs : lc (gsUri b pn) rt with
          | error e =>
            rw [hcs] at hok
            exact absurd (congrArg Prod.snd hok) (by simp)
          | ok cs =>
            rw [hcs] at hok
            exact ih _ hnd.2 hok hm

theorem processUpdates_ok_of_all_fine
    (lc : List Char → RuntimeConfig → Except (List Char) (List Config))
    (b : List Char) (rcs : List (List Char × RuntimeConfig)) (st : Store)
    (l : List (List Char × List Char))
    (h : ∀ p ∈ l, ∃ rt, rcLookup rcs p.1 = some rt ∧
      (rt.serviceAddr.isEmpty = true ∨ ∃ cs, lc (gsUri b p.1) rt = .ok cs)) :
    (processUpdates lc b rcs st l).2 = none := by
  induction l generalizing st with
  | nil => rfl
  | cons p rest ih =>
    obtain ⟨rt, hrt, hfine⟩ := h p (List.mem_cons_self p rest)
    have hrest : ∀ q ∈ rest, ∃ rt2, rcLookup rcs q.1 = some rt2 ∧
        (rt2.serviceAddr.isEmpty = true ∨ ∃ cs, lc (gsUri b q.1) rt2 = .ok cs) :=
      fun q hq => h q (List.mem_cons.mpr (Or.inr hq))
    rw [show (p = (p.1, p.2)) from rfl, processUpdates, hrt]
    rcases hfine with ha | ⟨cs, hcs⟩
    · simp only [ha, if_pos]
      exact ih _ hrest
    · by_cases ha : rt.serviceAddr.isEmpty
      · simp only [ha, if_pos]
        exact ih _ hrest
      · simp only [ha, if_neg, Bool.false_eq_true, not_false_eq_true, hcs]
        exact ih _ hrest

/-! ## Helper lemmas: the diff sets and the load pass -/

theorem mem_loadUpdated_iff (store : Store)
    (seqs : List (List Char × List Char)) (n s : List Char) :
    (n, s) ∈ loadUpdated store seqs ↔ (n, s) ∈ seqs ∧ storeSeq store n ≠ s := by
  simp [loadUpdated, List.mem_filter]

theorem mem_loadDeleted_iff (store : Store)
    (seqs : List (List Char × List Char)) (n : List Char) :
    n ∈ loadDeleted store seqs ↔
      n ∈ store.map Prod.fst ∧ n ∉ seqs.map Prod.fst := by
  simp only [loadDeleted, List.mem_filter, storeList_mem,
    Bool.not_eq_true']
  rw [← Bool.not_eq_true (seqs.any fun e => e.1 == n), any_fst_iff]

theorem loadUpdated_fst_subset (store : Store)
    (seqs : List (List Char × List Char)) (n : List Char)
    (h : n ∈ (loadUpdated store seqs).map Prod.fst) :
    n ∈ seqs.map Prod.fst :=
  ((List.filter_sublist seqs).map Prod.fst).subset h

theorem load_noUpdate_of_empty_diff (cm : ConfigMapSource)
    (lc : List Char → RuntimeConfig → Except (List Char) (List Config))
    (v : List Char) (store : Store) (seqs : List (List Char × List Char))
    (hs : cm.seqs = .ok seqs)
    (hu : loadUpdated store seqs = [])
    (hd : loadDeleted store seqs = []) :
    ConfigMapLoader_Load cm lc v store false = (.error .noUpdate, store) := by
  simp [ConfigMapLoader_Load, hs, hu, hd]

theorem load_eq_of_all_ok (cm : ConfigMapSource)
    (lc : List Char → RuntimeConfig → Except (List Char) (List Config))
    (v : List Char) (store : Store) (force : Bool)
    (seqs : List (List Char × List Char)) (bucket : List Char)
    (rcs : List (List Char × RuntimeConfig))
    (hs : cm.seqs = .ok seqs) (hb : cm.bucket = .ok bucket)
    (hr : cm.runtimeConfigs = .ok rcs)
    (hne : ((loadUpdated store seqs).isEmpty &&
      (loadDeleted store seqs).isEmpty && !force) = false) :
    ConfigMapLoader_Load cm lc v store force =
      (match processUpdates lc bucket rcs
          ((loadDeleted store seqs).foldl storeDelete store)
          (loadUpdated store seqs) with
        | (st2, some e) => (.error e, st2)
        | (st2, none) => (.ok (configRespOf v st2), st2)) := by
  simp only [ConfigMapLoader_Load, hs, hb, hr]
  simp [hne]

theorem storeSeq_congr (s s2 : Store) (n : List Char)
    (h : storeLookup s n = storeLookup s2 n) : storeSeq s n = storeSeq s2 n := by
  rw [storeSeq, storeSeq, h]

theorem loadDiff_empty_after_pass
    (lc : List Char → RuntimeConfig → Except (List Char) (List Config))
    (bucket : List Char) (rcs : List (List Char × RuntimeConfig))
    (store : Store) (seqs : List (List Char × List Char))
    (hnd : (seqs.map Prod.fst).Nodup)
    (hfine : ∀ p ∈ loadUpdated store seqs, ∃ rt,
      rcLookup rcs p.1 = some rt ∧ rt.serviceAddr.isEmpty = false ∧
      ∃ cs, lc (gsUri bucket p.1) rt = .ok cs) :
    (processUpdates lc bucket rcs
        ((loadDeleted store seqs).foldl storeDelete store)
        (loadUpdated store seqs)).2 = none ∧
    loadUpdated (processUpdates lc bucket rcs
        ((loadDeleted store seqs).foldl storeDelete store)
        (loadUpdated store seqs)).1 seqs = [] ∧
    loadDeleted (processUpdates lc bucket rcs
        ((loadDeleted store seqs).foldl storeDelete store)
        (loadUpdated store seqs)).1 seqs = [] := by
  have hnone : (processUpdates lc bucket rcs
      ((loadDeleted store seqs).foldl storeDelete store)
      (loadUpdated store seqs)).2 = none := by
    apply processUpdates_ok_of_all_fine
    intro p hp
    obtain ⟨rt, hrt, _, cs, hcs⟩ := hfine p hp
    exact ⟨rt, hrt, Or.inr ⟨cs, hcs⟩⟩
  have hpair : processUpdates lc bucket rcs
      ((loadDeleted store seqs).foldl storeDelete store)
      (loadUpdated store seqs) =
      ((processUpdates lc bucket rcs
        ((loadDeleted store seqs).foldl storeDelete store)
        (loadUpdated store seqs)).1, none) := by
    rw [← hnone]
  have hndu : ((loadUpdated store seqs).map Prod.fst).Nodup :=
    ((List.filter_sublist seqs).map Prod.fst).nodup hnd
  refine ⟨hnone, ?_, ?_⟩
  · rw [loadUpdated, List.filter_eq_nil_iff]
    intro p hp
    simp only [Bool.not_eq_true, bne_eq_false_iff_eq]
    by_cases hmem : (p.1, p.2) ∈ loadUpdated store seqs
    · rcases processUpdates_seq_of_ok lc bucket rcs _ _ _ hndu hpair p.1 p.2
          hmem with ⟨rt, hrt, hemp⟩ | hseq
      · obtain ⟨rt2, hrt2, hne2, _⟩ := hfine (p.1, p.2) hmem
        rw [hrt] at hrt2
        cases hrt2
        rw [hemp] at hne2
        cases hne2
      · exact hseq
    · have hkeep : storeSeq store p.1 = p.2 := by
        by_contra hc
        exact hmem ((mem_loadUpdated_iff store seqs p.1 p.2).mpr ⟨hp, hc⟩)
      have hnupd : p.1 ∉ (loadUpdated store seqs).map Prod.fst := by
        intro hin
        obtain ⟨q, hq, hq1⟩ := List.mem_map.mp hin
        have hq2 : q.2 = p.2 := by
          have hqseqs : (p.1, q.2) ∈ seqs := by
            have : q = (p.1, q.2) := by
              rw [← hq1]
            rw [this] at hq
            exact ((List.filter_sublist _).subset hq)
          exact nodup_fst_eq seqs hnd hqseqs hp
        apply hmem
        have : q = (p.1, p.2) := by
          rw [← hq1, ← hq2]
        rw [← this]
        exact hq
      have hdel : p.1 ∉ loadDeleted store seqs := by
        intro hin
        exact ((mem_loadDeleted_iff store seqs p.1).mp hin).2
          (List.mem_map.mpr ⟨p, hp, rfl⟩)
      have h0 : storeLookup ((loadDeleted store seqs).foldl storeDelete store)
          p.1 = storeLookup store p.1 := by
        rw [storeLookup_foldl_delete, if_neg hdel]
      have h1 : storeLookup (processUpdates lc bucket rcs
          ((loadDeleted store seqs).foldl storeDelete store)
          (loadUpdated store seqs)).1 p.1 = storeLookup store p.1 := by
        rw [processUpdates_untouched _ _ _ _ _ _ hnupd, h0]
      rw [storeSeq_congr _ store _ h1, hkeep]
  · rw [loadDeleted, List.filter_eq_nil_iff]
    intro n hn
    simp only [Bool.not_eq_true, Bool.not_eq_false']
    rw [any_fst_iff]
    by_contra hns
    have hnupd : n ∉ (loadUpdated store seqs).map Prod.fst :=
      fun hc => hns (loadUpdated_fst_subset store seqs n hc)
    have h1 : storeLookup (processUpdates lc bucket rcs
        ((loadDeleted store seqs).foldl storeDelete store)
        (loadUpdated store seqs)).1 n =
        storeLookup ((loadDeleted store seqs).foldl storeDelete store) n :=
      processUpdates_untouched _ _ _ _ _ _ hnupd
    have h2 : storeLookup ((loadDeleted store seqs).foldl storeDelete store) n
        = none := by
      rw [storeLookup_foldl_delete]
      by_cases hd : n ∈ loadDeleted store seqs
      · rw [if_pos hd]
      · rw [if_neg hd]
        rw [storeLookup_eq_none_iff]
        intro hkey
        exact hd ((mem_loadDeleted_iff store seqs n).mpr ⟨hkey, hns⟩)
    have h3 : n ∈ (processUpdates lc bucket rcs
        ((loadDeleted store seqs).foldl storeDelete store)
        (loadUpdated store seqs)).1.map Prod.fst :=
      (storeList_mem _ n).mp hn
    exact (storeLookup_eq_none_iff _ n).mp (h1.trans h2) h3

/-! ## Helper lemmas: slot-indexed writes -/

theorem writeSlots_length (w : Nat → Option Config) (order : List Nat)
    (init : List (Option Config)) :
    (writeSlots w init order).length = init.length := by
  induction order generalizing init with
  | nil => rfl
  | cons i rest ih => rw [writeSlots, ih, List.length_set]

theorem writeSlots_getElem?_not_mem (w : Nat → Option Config)
    (order : List Nat) (init : List (Option Config)) (j : Nat)
    (h : j ∉ order) :
    (writeSlots w init order)[j]? = init[j]? := by
  induction order generalizing init with
  | nil => rfl
  | cons i rest ih =>
    simp only [List.mem_cons, not_or] at h
    rw [writeSlots, ih _ h.2, List.getElem?_set_ne (fun hc => h.1 hc.symm)]

theorem writeSlots_getElem?_mem (w : Nat → Option Config) (order : List Nat)
    (init : List (Option Config)) (j : Nat) (hnd : order.Nodup)
    (hmem : j ∈ order) (hlt : j < init.length) :
    (writeSlots w init order)[j]? = some (w j) := by
  induction order generalizing init with
  | nil => cases hmem
  | cons i rest ih =>
    rw [List.nodup_cons] at hnd
    rw [writeSlots]
    rcases List.mem_cons.mp hmem with rfl | hm
    · rw [writeSlots_getElem?_not_mem _ _ _ _ hnd.1]
      exact List.getElem?_set_eq_of_lt _ hlt
    · exact ih _ hnd.2 hm (by rw [List.length_set]; exact hlt)

theorem writeSlots_perm_eq (w : Nat → Option Config) (n : Nat)
    (order : List Nat) (h : order.Perm (List.range n)) :
    writeSlots w (List.replicate n none) order = (List.range n).map w := by
  have hnd : order.Nodup := h.symm.nodup (List.nodup_range n)
  apply List.ext_getElem?
  intro j
  by_cases hj : j < n
  · rw [writeSlots_getElem?_mem w order _ j hnd
      (h.mem_iff.mpr (List.mem_range.mpr hj))
      (by rw [List.length_replicate]; exact hj)]
    rw [List.getElem?_map, List.getElem?_range hj]
    rfl
  · have h1 : (writeSlots w (List.replicate n none) order)[j]? = none :=
      List.getElem?_eq_none
        (by rw [writeSlots_length, List.length_replicate]; omega)
    have h2 : ((List.range n).map w)[j]? = none :=
      List.getElem?_eq_none
        (by rw [List.length_map, List.length_range]; omega)
    rw [h1, h2]

theorem map_range_workOf
    (desc : List Char → Except (List Char) CmdDescriptor)
    (rc : RuntimeConfig) (platform : RemoteexecPlatform)
    (l : List ObjAttrs) :
    (List.range l.length).map (workOf desc rc platform l) =
      l.map (slotOf desc rc platform) := by
  induction l with
  | nil => rfl
  | cons a t ih =>
    rw [List.length_cons, List.range_succ_eq_map, List.map_cons,
      List.map_map]
    congr 1

theorem firstWorkerError_eq_none_iff
    (desc : List Char → Except (List Char) CmdDescriptor)
    (rc : RuntimeConfig) (platform : RemoteexecPlatform)
    (l : List ObjAttrs) :
    firstWorkerError desc rc platform l = none ↔
      l.any (workerErrored desc rc platform) = false := by
  rw [firstWorkerError, List.findSome?_eq_none_iff]
  constructor
  · intro H
    rw [← Bool.not_eq_true, List.any_eq_true]
    rintro ⟨a, ha, hw⟩
    have h2 := H a ha
    rw [workerErrored] at hw
    revert h2 hw
    cases workerResult desc rc platform a <;> simp
  · intro H a ha
    have h2 : ¬ workerErrored desc rc platform a = true :=
      (List.any_eq_false.mp H) a ha
    rw [workerErrored] at h2
    revert h2
    cases workerResult desc rc platform a <;> simp

/-! ## Claim theorems -/

theorem merge_foldl (m : List (List Char)) (src : List Platform_Property)
    (acc : List RemoteexecPlatform_Property) :
    src.foldl (fun acc2 q => if m.contains q.name then acc2
        else acc2 ++ [{ name := q.name, value := q.value }]) acc =
      acc ++ (src.filter (fun q => !m.contains q.name)).map
        (fun q => { name := q.name, value := q.value }) := by
  induction src generalizing acc with
  | nil => simp
  | cons q rest ih =>
    by_cases h : m.contains q.name = true
    · have hm : q.name ∈ m := List.mem_of_elem_eq_true h
      rw [List.foldl_cons, if_pos h, ih]
      simp [List.filter_cons, hm]
    · have hm : q.name ∉ m := fun hc => h (List.elem_eq_true_of_mem hc)
      rw [List.foldl_cons, if_neg h, ih]
      simp [List.filter_cons, hm]

/-- Claim C9: `mergePlatformProperties` leaves every target property whose
name already occurs in the target untouched and appends exactly the source
properties whose names are absent from the target, in source order; in
particular target `[{OS, Linux}]` overlaid with source
`[{OS, Windows}, {ABI, x64}]` yields `[{OS, Linux}, {ABI, x64}]`. -/
theorem mergePlatformProperties_spec :
    (∀ (rbe : RemoteexecPlatform) (p : Platform),
      (mergePlatformProperties rbe (some p)).properties =
        rbe.properties ++
          (p.properties.filter (fun q =>
            decide (∀ t ∈ rbe.properties, t.name ≠ q.name))).map
            (fun q => { name := q.name, value := q.value })) ∧
    mergePlatformProperties platformOSLinux (some platformOverlay) =
      platformMerged := by
  constructor
  · intro rbe p
    have hf : List.filter
        (fun q => !(List.map (fun t => t.name) rbe.properties).contains q.name)
        p.properties =
        List.filter (fun q => decide (∀ t ∈ rbe.properties, t.name ≠ q.name))
        p.properties := by
      apply List.filter_congr
      intro q _
      simp [List.mem_map]
      rw [← decide_not, decide_eq_decide]
      push_neg
      rfl
    simp only [mergePlatformProperties, merge_foldl, hf]
  · decide

/-- Claim C8 counterexample: `checkSelector` denies the selector
`{gcc, 2, x64, hh}` against the deny entry `{gcc, 1, , }` although no
deny-list entry equals the selector on all fields, so deny-list matching is
not exact tuple equality. -/
theorem checkSelector_counterexample :
    checkSelector rcDenyGcc1 (some selGcc2) = false ∧
    ∀ s ∈ rcDenyGcc1.disallowedCommands, s ≠ selGcc2 := by
  decide

/-- Claim C8 (amended): a descriptor's selector matches a deny-list entry
field-wise, not tuple-wise: `checkSelector` denies exactly when some
deny-list entry has a non-empty name, version, target or content hash equal
to the selector's corresponding field. -/
theorem checkSelector_field_match (rc : RuntimeConfig) (sel : Selector) :
    checkSelector rc (some sel) = false ↔
      ∃ s ∈ rc.disallowedCommands,
        (s.name ≠ [] ∧ s.name = sel.name) ∨
        (s.version ≠ [] ∧ s.version = sel.version) ∨
        (s.target ≠ [] ∧ s.target = sel.target) ∨
        (s.binaryHash ≠ [] ∧ s.binaryHash = sel.binaryHash) := by
  rw [checkSelector]
  rw [Bool.not_eq_false', List.any_eq_true]
  constructor
  · rintro ⟨s, hs, hcond⟩
    refine ⟨s, hs, ?_⟩
    revert hcond
    simp only [Bool.or_eq_true, Bool.and_eq_true, Bool.not_eq_true',
      List.isEmpty_eq_false, beq_iff_eq, ne_eq]
    tauto
  · rintro ⟨s, hs, hcond⟩
    refine ⟨s, hs, ?_⟩
    revert hcond
    simp only [Bool.or_eq_true, Bool.and_eq_true, Bool.not_eq_true',
      List.isEmpty_eq_false, beq_iff_eq, ne_eq]
    tauto

theorem checkPrebuilt_iff (rc : RuntimeConfig) (objName : List Char) :
    checkPrebuilt rc objName = true ↔
      ∃ pn, prebuiltNameOf objName = some pn ∧
        (∀ pre ∈ rc.disallowedPrebuilts, goHasPrefix pn pre = false) ∧
        (rc.allowedPrebuilts ≠ [] →
          ∃ pre ∈ rc.allowedPrebuilts, goHasPrefix pn pre = true) := by
  rw [checkPrebuilt, prebuiltNameOf]
  cases h : goIndex "/descriptors".data objName with
  | none => simp
  | some i =>
    simp only [Option.map_some']
    constructor
    · intro H
      by_cases hd : rc.disallowedPrebuilts.any
          (fun pre => goHasPrefix (pathBase (objName.take i)) pre) = true
      · rw [if_pos hd] at H
        cases H
      · rw [if_neg hd] at H
        refine ⟨pathBase (objName.take i), rfl, ?_, ?_⟩
        · intro pre hpre
          rcases Bool.eq_false_or_eq_true
              (goHasPrefix (pathBase (objName.take i)) pre) with ht | hf
          · exact absurd (List.any_eq_true.mpr ⟨pre, hpre, ht⟩) hd
          · exact hf
        · intro hne
          by_cases ha : rc.allowedPrebuilts.isEmpty = true
          · exact absurd (List.isEmpty_iff.mp ha) hne
          · rw [if_neg ha] at H
            exact List.any_eq_true.mp H
    · rintro ⟨pn, hpn, hdeny, hallow⟩
      obtain rfl : pathBase (objName.take i) = pn := Option.some.inj hpn
      have hd : rc.disallowedPrebuilts.any
          (fun pre => goHasPrefix (pathBase (objName.take i)) pre) = false := by
        rw [← Bool.not_eq_true, List.any_eq_true]
        rintro ⟨pre, hpre, ht⟩
        rw [hdeny pre hpre] at ht
        cases ht
      rw [if_neg (by simp [hd])]
      by_cases ha : rc.allowedPrebuilts.isEmpty = true
      · rw [if_pos ha]
      · rw [if_neg ha]
        apply List.any_eq_true.mpr
        exact hallow (fun hc => ha (by rw [hc]; rfl))

theorem survivesFilter_iff (rc : RuntimeConfig) (a : ObjAttrs) :
    survivesFilter rc a = true ↔ amendedSurvives rc a := by
  rw [survivesFilter, Bool.and_eq_true, beq_iff_eq, amendedSurvives,
    checkPrebuilt_iff]
  exact and_comm

/-- Claim C4 counterexample: the object
`"p/descriptorsz/descriptors/h"` with deny-list `["descriptorsz"]`
survives the listing filter (the code extracts the prebuilt name `"p"` at
the first `"/descriptors"` occurrence), although the directory two levels
above the object is `"descriptorsz"`, which the claim says must be
rejected. -/
theorem filterListing_counterexample :
    filterListing rcDenyPrebuilt [objTricky] = [objTricky] ∧
    ¬ claimSurvives rcDenyPrebuilt objTricky := by
  constructor
  · decide
  · decide

/-- Claim C4 (amended): a listed object survives filtering (and gets an
output slot, the survivors keeping their listing order) iff its parent
directory is literally `"descriptors"` and the prebuilt-item name — the
base name of the object-name prefix preceding the first occurrence of
`"/descriptors"`, rather than the directory two levels above the object —
matches no deny-list prefix and, when the allow-list is non-empty, at
least one allow-list prefix. -/
theorem filterListing_spec (rc : RuntimeConfig) (listing : List ObjAttrs) :
    (filterListing rc listing).Sublist listing ∧
    ∀ a, a ∈ filterListing rc listing ↔ a ∈ listing ∧ amendedSurvives rc a := by
  refine ⟨List.filter_sublist listing, fun a => ?_⟩
  rw [filterListing, List.mem_filter]
  exact and_congr_right (fun _ => survivesFilter_iff rc a)

theorem checkSelector_field_match_witness :
    checkSelector rcDenyGcc1 (some selGcc2) = false ↔
      ∃ s ∈ rcDenyGcc1.disallowedCommands,
        (s.name ≠ [] ∧ s.name = selGcc2.name) ∨
        (s.version ≠ [] ∧ s.version = selGcc2.version) ∨
        (s.target ≠ [] ∧ s.target = selGcc2.target) ∨
        (s.binaryHash ≠ [] ∧ s.binaryHash = selGcc2.binaryHash) :=
  checkSelector_field_match rcDenyGcc1 selGcc2

theorem filterListing_spec_witness :
    (filterListing rcDenyPrebuilt [objTricky]).Sublist [objTricky] :=
  (filterListing_spec rcDenyPrebuilt [objTricky]).1

/-- Claim C5: when every descriptor fetch and parse succeeds, a record
whose selector is denied, whose descriptor lacks setup information, or
whose setup has the unknown path type only loses its own slot, and the
`loadConfigs` batch still returns success, containing exactly the slots of
the other, valid records (the compaction of the per-item slots). -/
theorem loadConfigs_recoverable_drops
    (desc : List Char → Except (List Char) CmdDescriptor)
    (uri : List Char) (rc : RuntimeConfig) (platform : RemoteexecPlatform)
    (listing : List ObjAttrs) (bk : List Char × List Char)
    (hu : splitGCSPath uri = .ok bk)
    (hok : ∀ a ∈ filterListing rc listing,
      workerErrored desc rc platform a = false) :
    loadConfigs desc uri rc platform listing =
      .ok ((filterListing rc listing).filterMap (slotOf desc rc platform)) ∧
    (∀ (a : ObjAttrs) (d : CmdDescriptor), desc a.name = .ok d →
      (checkSelector rc d.selector = false ∨ d.setup = none ∨
        d.setup = some { pathType := PathType.UNKNOWN_PATH_TYPE }) →
      slotOf desc rc platform a = none) ∧
    (∀ (a : ObjAttrs) (d : CmdDescriptor) (su : CmdSetup),
      desc a.name = .ok d →
      checkSelector rc d.selector = true → d.setup = some su →
      su.pathType ≠ PathType.UNKNOWN_PATH_TYPE →
      slotOf desc rc platform a = some
        { target := some { addr := rc.serviceAddr }
          buildInfo := some { timestamp := a.updated }
          cmdDescriptor := some d
          remoteexecPlatform := some platform
          dimensions := []
          acl := rc.acl }) := by
  refine ⟨?_, ?_, ?_⟩
  · have hfe : firstWorkerError desc rc platform (filterListing rc listing)
        = none := by
      rw [firstWorkerError_eq_none_iff]
      rw [← Bool.not_eq_true, List.any_eq_true]
      rintro ⟨a, ha, hw⟩
      rw [hok a ha] at hw
      cases hw
    simp only [loadConfigs, hu, hfe]
  · intro a d hd hbad
    rcases hbad with hsel | hsetup | hunk
    · simp [slotOf, workerResult, hd, hsel]
    · simp [slotOf, workerResult, hd, hsetup]
    · by_cases hsel2 : checkSelector rc d.selector = true
      · simp [slotOf, workerResult, hd, hunk, hsel2]
      · simp [slotOf, workerResult, hd, hunk, hsel2]
  · intro a d su hd hsel hsu hne
    simp [slotOf, workerResult, hd, hsel, hsu, hne]

/-- Claim C6: a fetch or parse failure (`loadDescriptor` error) for any
single surviving object makes the whole `loadConfigs` batch fail: an error
is returned and no list of records is produced. -/
theorem loadConfigs_fetch_error_fatal
    (desc : List Char → Except (List Char) CmdDescriptor)
    (uri : List Char) (rc : RuntimeConfig) (platform : RemoteexecPlatform)
    (listing : List ObjAttrs) (a : ObjAttrs) (e : List Char)
    (ha : a ∈ filterListing rc listing) (he : desc a.name = .error e) :
    ∃ msg, loadConfigs desc uri rc platform listing = .error msg := by
  cases hs : splitGCSPath uri with
  | error e2 =>
    refine ⟨e2, ?_⟩
    simp only [loadConfigs, hs]
  | ok bk =>
    have hne : firstWorkerError desc rc platform (filterListing rc listing)
        ≠ none := by
      intro hc
      rw [firstWorkerError, List.findSome?_eq_none_iff] at hc
      have h2 := hc a ha
      rw [workerResult, he] at h2
      cases h2
    obtain ⟨msg, hm⟩ := Option.ne_none_iff_exists'.mp hne
    refine ⟨msg, ?_⟩
    simp only [loadConfigs, hs, hm]

/-- Claim C3: the output of `loadConfigs` is independent of the order in
which the concurrent workers commit their slot writes: for every
permutation of the slot indices, the concurrent execution produces exactly
the sequential (concurrency 1) result, because each worker writes only its
own pre-sized slot and the slots are compacted in listing order. -/
theorem loadConfigs_order_independent
    (desc : List Char → Except (List Char) CmdDescriptor)
    (uri : List Char) (rc : RuntimeConfig) (platform : RemoteexecPlatform)
    (listing : List ObjAttrs) (order : List Nat)
    (h : order.Perm (List.range (filterListing rc listing).length)) :
    loadConfigsPar desc uri rc platform listing order =
      (loadConfigs desc uri rc platform listing).toOption := by
  cases hs : splitGCSPath uri with
  | error e => simp only [loadConfigsPar, loadConfigs, hs, Except.toOption]
  | ok bk =>
    by_cases he : (filterListing rc listing).any
        (workerErrored desc rc platform) = true
    · have hne : firstWorkerError desc rc platform (filterListing rc listing)
          ≠ none := by
        intro hc
        rw [firstWorkerError_eq_none_iff] at hc
        rw [hc] at he
        cases he
      obtain ⟨msg, hm⟩ := Option.ne_none_iff_exists'.mp hne
      simp only [loadConfigsPar, loadConfigs, hs, hm, if_pos he,
        Except.toOption]
    · rw [Bool.not_eq_true] at he
      have hfe : firstWorkerError desc rc platform (filterListing rc listing)
          = none := (firstWorkerError_eq_none_iff desc rc platform _).mpr he
      simp only [loadConfigsPar, loadConfigs, hs, hfe,
        Bool.false_eq_true, if_neg, he, Except.toOption]
      rw [writeSlots_perm_eq _ _ _ h, map_range_workOf, List.filterMap_map]
      rfl

theorem loadConfigs_recoverable_drops_witness :
    loadConfigs descOracle "gs://b/rt".data rcBase platformNone listingTwo =
      .ok ((filterListing rcBase listingTwo).filterMap
        (slotOf descOracle rcBase platformNone)) ∧
    slotOf descOracle rcBase platformNone
      { name := "rt/a/descriptors/h2".data, updated := 2 } = none :=
  ⟨(loadConfigs_recoverable_drops descOracle "gs://b/rt".data rcBase
      platformNone listingTwo ("b".data, "rt".data) rfl (by decide)).1,
    (loadConfigs_recoverable_drops descOracle "gs://b/rt".data rcBase
      platformNone listingTwo ("b".data, "rt".data) rfl
      (by decide)).2.1
      { name := "rt/a/descriptors/h2".data, updated := 2 } descNoSetup
      rfl (Or.inr (Or.inl rfl))⟩

theorem loadConfigs_fetch_error_fatal_witness :
    ∃ msg, loadConfigs descOracle "gs://b/rt".data rcBase platformNone
      listingBad = .error msg :=
  loadConfigs_fetch_error_fatal descOracle "gs://b/rt".data rcBase
    platformNone listingBad { name := "rt/a/descriptors/h3".data, updated := 3 }
    "load failed".data (by decide) rfl

theorem loadConfigs_order_independent_witness :
    loadConfigsPar descOracle "gs://b/rt".data rcBase platformNone listingTwo
      [1, 0] =
      (loadConfigs descOracle "gs://b/rt".data rcBase platformNone
        listingTwo).toOption :=
  loadConfigs_order_independent descOracle "gs://b/rt".data rcBase
    platformNone listingTwo [1, 0] (by decide)

theorem load_deleted_lookup_none (cm : ConfigMapSource)
    (lc : List Char → RuntimeConfig → Except (List Char) (List Config))
    (v : List Char) (force : Bool) (store : Store)
    (seqs : List (List Char × List Char)) (n : List Char)
    (hs : cm.seqs = .ok seqs) (hdel : n ∈ loadDeleted store seqs) :
    storeLookup (ConfigMapLoader_Load cm lc v store force).2 n = none := by
  have hdne : loadDeleted store seqs ≠ [] := by
    intro hc
    rw [hc] at hdel
    cases hdel
  have hde : (loadDeleted store seqs).isEmpty = false := by
    rcases hq : loadDeleted store seqs with _ | ⟨x, xs⟩
    · exact absurd hq hdne
    · rfl
  have hcond : ((loadUpdated store seqs).isEmpty &&
      (loadDeleted store seqs).isEmpty && !force) = false := by
    rw [hde]
    simp
  have hn_upd : n ∉ (loadUpdated store seqs).map Prod.fst := by
    intro hc
    exact ((mem_loadDeleted_iff store seqs n).mp hdel).2
      (loadUpdated_fst_subset store seqs n hc)
  have hfold : storeLookup ((loadDeleted store seqs).foldl storeDelete store)
      n = none := by
    rw [storeLookup_foldl_delete, if_pos hdel]
  simp only [ConfigMapLoader_Load, hs, hcond, Bool.false_eq_true, if_false]
  cases hb : cm.bucket with
  | error e =>
    simp only [hb]
    exact hfold
  | ok bucket =>
    cases hr : cm.runtimeConfigs with
    | error e =>
      simp only [hb, hr]
      exact hfold
    | ok rcs =>
      simp only [hb, hr]
      have hu := processUpdates_untouched lc bucket rcs
        ((loadDeleted store seqs).foldl storeDelete store)
        (loadUpdated store seqs) n hn_upd
      rcases hpu : processUpdates lc bucket rcs
          ((loadDeleted store seqs).foldl storeDelete store)
          (loadUpdated store seqs) with ⟨st2, e2⟩
      rw [hpu] at hu
      cases e2 with
      | none => exact hu.trans hfold
      | some e3 => exact hu.trans hfold

/-- Claim C1 counterexample: with an empty store and the fetched seq map
`[("r", "")]`, the runtime `"r"` is new (absent from the store) yet is not
marked for reload — the zero-value token recorded for an absent name is
`""` and equals the fetched token — and `Load(force = false)` even reports
the "no update" sentinel. -/
theorem loadDiff_counterexample :
    storeLookup ([] : Store) "r".data = none ∧
    loadUpdated [] [("r".data, [])] = [] ∧
    loadDeleted [] [("r".data, [])] = [] ∧
    (ConfigMapLoader_Load cmNewEmptySeq lcNull "v".data [] false).1 =
      .error .noUpdate :=
  ⟨rfl, rfl, rfl, rfl⟩

/-- Claim C1 (amended): `Load(force = false)` marks for reload exactly the
fetched names whose token differs from the token the store records for
them, where a name absent from the store records the empty token (so a new
name is marked iff its fetched token is non-empty); and it deletes exactly
the stored names absent from the fetched map — after the pass the store no
longer holds any such name. -/
theorem loadDiff_spec (store : Store) (seqs : List (List Char × List Char)) :
    (∀ n s, (n, s) ∈ loadUpdated store seqs ↔
      (n, s) ∈ seqs ∧ storeSeq store n ≠ s) ∧
    (∀ n, n ∈ loadDeleted store seqs ↔
      storeLookup store n ≠ none ∧ ∀ s, (n, s) ∉ seqs) ∧
    (∀ cm lc v force n, cm.seqs = .ok seqs →
      n ∈ loadDeleted store seqs →
      storeLookup (ConfigMapLoader_Load cm lc v store force).2 n = none) := by
  refine ⟨mem_loadUpdated_iff store seqs, fun n => ?_,
    fun cm lc v force n hs hdel =>
      load_deleted_lookup_none cm lc v force store seqs n hs hdel⟩
  rw [mem_loadDeleted_iff]
  constructor
  · rintro ⟨h1, h2⟩
    refine ⟨fun hc => ((storeLookup_eq_none_iff store n).mp hc) h1, ?_⟩
    intro s hsm
    exact h2 (List.mem_map.mpr ⟨(n, s), hsm, rfl⟩)
  · rintro ⟨h1, h2⟩
    refine ⟨?_, ?_⟩
    · by_contra hc
      exact h1 ((storeLookup_eq_none_iff store n).mpr hc)
    · intro hm
      obtain ⟨e, he, he1⟩ := List.mem_map.mp hm
      apply h2 e.2
      have he2 : e = (n, e.2) := by
        rw [← he1]
      rw [← he2]
      exact he

theorem loadDiff_spec_witness :
    storeLookup (ConfigMapLoader_Load cmDropGone lcNull "v".data storeGoneR
      false).2 "gone".data = none :=
  (loadDiff_spec storeGoneR [("r".data, "1".data)]).2.2 cmDropGone lcNull
    "v".data false "gone".data rfl (by decide)

/-- Claim C2 counterexample: with a runtime whose resolved service address
is empty, the first `Load(force = false)` succeeds but skips the runtime,
leaving its stale token, so the second call with no intervening source
change reloads again instead of returning the "no update" sentinel. -/
theorem load_twice_counterexample :
    isOkResult (ConfigMapLoader_Load cmEmptyAddr lcNull "v1".data [] false) =
      true ∧
    isNoUpdate (ConfigMapLoader_Load cmEmptyAddr lcNull "v2".data
      (ConfigMapLoader_Load cmEmptyAddr lcNull "v1".data [] false).2
      false).1 = false :=
  ⟨rfl, rfl⟩

/-- Claim C2 (amended): with an empty diff and `force = false`, `Load`
returns the `ErrNoUpdate` sentinel and performs zero store mutation; and
two successive `Load(force = false)` calls with no intervening source
change return "no update" on the second call with the store unchanged,
provided every runtime marked for reload on the first call resolves to
metadata with a non-empty service address and a successful config load (a
skipped or failed runtime keeps a stale token and is re-marked). -/
theorem load_noUpdate_steady_state :
    (∀ cm lc v store seqs, cm.seqs = .ok seqs →
      loadUpdated store seqs = [] → loadDeleted store seqs = [] →
      ConfigMapLoader_Load cm lc v store false = (.error .noUpdate, store)) ∧
    (∀ cm lc v w store seqs bucket rcs,
      cm.seqs = .ok seqs → cm.bucket = .ok bucket →
      cm.runtimeConfigs = .ok rcs →
      (seqs.map Prod.fst).Nodup →
      (∀ p ∈ loadUpdated store seqs, ∃ rt, rcLookup rcs p.1 = some rt ∧
        rt.serviceAddr.isEmpty = false ∧
        ∃ cs, lc (gsUri bucket p.1) rt = .ok cs) →
      ConfigMapLoader_Load cm lc w
          (ConfigMapLoader_Load cm lc v store false).2 false =
        (.error .noUpdate, (ConfigMapLoader_Load cm lc v store false).2)) := by
  constructor
  · exact fun cm lc v store seqs hs hu hd =>
      load_noUpdate_of_empty_diff cm lc v store seqs hs hu hd
  · intro cm lc v w store seqs bucket rcs hs hb hr hnd hfine
    by_cases hdiff : loadUpdated store seqs = [] ∧ loadDeleted store seqs = []
    · have h1 := load_noUpdate_of_empty_diff cm lc v store seqs hs hdiff.1
        hdiff.2
      rw [h1]
      exact load_noUpdate_of_empty_diff cm lc w store seqs hs hdiff.1 hdiff.2
    · have hcond : ((loadUpdated store seqs).isEmpty &&
          (loadDeleted store seqs).isEmpty && !false) = false := by
        rcases not_and_or.mp hdiff with h | h
        · have h2 : (loadUpdated store seqs).isEmpty = false := by
            rcases hq : loadUpdated store seqs with _ | ⟨x, xs⟩
            · exact absurd hq h
            · rfl
          rw [h2]
          rfl
        · have h2 : (loadDeleted store seqs).isEmpty = false := by
            rcases hq : loadDeleted store seqs with _ | ⟨x, xs⟩
            · exact absurd hq h
            · rfl
          rw [h2]
          simp
      have heq := load_eq_of_all_ok cm lc v store false seqs bucket rcs hs hb
        hr hcond
      obtain ⟨hnone, hu2, hd2⟩ := loadDiff_empty_after_pass lc bucket rcs
        store seqs hnd hfine
      have hpu : processUpdates lc bucket rcs
          ((loadDeleted store seqs).foldl storeDelete store)
          (loadUpdated store seqs) =
          ((processUpdates lc bucket rcs
            ((loadDeleted store seqs).foldl storeDelete store)
            (loadUpdated store seqs)).1, none) := by
        rw [← hnone]
      have hst : ConfigMapLoader_Load cm lc v store false =
          (.ok (configRespOf v (processUpdates lc bucket rcs
            ((loadDeleted store seqs).foldl storeDelete store)
            (loadUpdated store seqs)).1),
          (processUpdates lc bucket rcs
            ((loadDeleted store seqs).foldl storeDelete store)
            (loadUpdated store seqs)).1) := by
        rw [heq, hpu]
      rw [hst]
      exact load_noUpdate_of_empty_diff cm lc w _ seqs hs hu2 hd2

theorem load_noUpdate_steady_state_witness :
    ConfigMapLoader_Load cmGood lcNull "w".data
        (ConfigMapLoader_Load cmGood lcNull "v".data [] false).2 false =
      (.error .noUpdate,
        (ConfigMapLoader_Load cmGood lcNull "v".data [] false).2) :=
  load_noUpdate_steady_state.2 cmGood lcNull "v".data "w".data []
    [("r".data, "1".data)] "b".data [("r".data, rcNamedR)] rfl rfl rfl
    (by decide)
    (by
      intro p hp
      have he : loadUpdated ([] : Store) [("r".data, "1".data)] =
          [("r".data, "1".data)] := rfl
      rw [he, List.mem_singleton] at hp
      rw [hp]
      exact ⟨rcNamedR, rfl, rfl, ⟨[], rfl⟩⟩)

/-- Claim C7: during a `Load` pass, a runtime marked for reload whose name
is absent from the runtime-metadata map makes the whole call abort with an
error (never the no-update sentinel); one whose metadata resolves to an
empty service address is skipped for this pass without failing it — its
store entry is left untouched, still holding its prior (now stale) token
and records. -/
theorem load_runtime_metadata_handling
    (cm : ConfigMapSource)
    (lc : List Char → RuntimeConfig → Except (List Char) (List Config))
    (v : List Char) (store : Store) (force : Bool)
    (seqs : List (List Char × List Char)) (bucket : List Char)
    (rcs : List (List Char × RuntimeConfig)) (n s : List Char)
    (hs : cm.seqs = .ok seqs) (hb : cm.bucket = .ok bucket)
    (hr : cm.runtimeConfigs = .ok rcs)
    (hmem : (n, s) ∈ loadUpdated store seqs) :
    (rcLookup rcs n = none →
      ∃ msg, (ConfigMapLoader_Load cm lc v store force).1 =
        .error (.err msg)) ∧
    (∀ rt, rcLookup rcs n = some rt → rt.serviceAddr.isEmpty = true →
      storeLookup (ConfigMapLoader_Load cm lc v store force).2 n =
        storeLookup store n ∧
      ((∀ p ∈ loadUpdated store seqs, ∃ rt2, rcLookup rcs p.1 = some rt2 ∧
          (rt2.serviceAddr.isEmpty = true ∨
            ∃ cs, lc (gsUri bucket p.1) rt2 = .ok cs)) →
        ∃ resp, (ConfigMapLoader_Load cm lc v store force).1 =
          .ok resp)) := by
  have hseqs : (n, s) ∈ seqs :=
    ((mem_loadUpdated_iff store seqs n s).mp hmem).1
  have hune : loadUpdated store seqs ≠ [] := by
    intro hc
    rw [hc] at hmem
    cases hmem
  have hue : (loadUpdated store seqs).isEmpty = false := by
    rcases hq : loadUpdated store seqs with _ | ⟨x, xs⟩
    · exact absurd hq hune
    · rfl
  have hcond : ((loadUpdated store seqs).isEmpty &&
      (loadDeleted store seqs).isEmpty && !force) = false := by
    rw [hue]
    rfl
  have heq := load_eq_of_all_ok cm lc v store force seqs bucket rcs hs hb hr
    hcond
  constructor
  · intro hmiss
    obtain ⟨msg, hpu2⟩ := processUpdates_err_of_missing lc bucket rcs
      ((loadDeleted store seqs).foldl storeDelete store)
      (loadUpdated store seqs) n s hmem hmiss
    have hpu : processUpdates lc bucket rcs
        ((loadDeleted store seqs).foldl storeDelete store)
        (loadUpdated store seqs) =
        ((processUpdates lc bucket rcs
          ((loadDeleted store seqs).foldl storeDelete store)
          (loadUpdated store seqs)).1, some (.err msg)) := by
      rw [← hpu2]
    refine ⟨msg, ?_⟩
    rw [heq, hpu]
  · intro rt hrt ha
    constructor
    · have hdel : n ∉ loadDeleted store seqs := by
        intro hc
        exact ((mem_loadDeleted_iff store seqs n).mp hc).2
          (List.mem_map.mpr ⟨(n, s), hseqs, rfl⟩)
      have hfold : storeLookup
          ((loadDeleted store seqs).foldl storeDelete store) n =
          storeLookup store n := by
        rw [storeLookup_foldl_delete, if_neg hdel]
      have hskip := processUpdates_skip_untouched lc bucket rcs
        ((loadDeleted store seqs).foldl storeDelete store)
        (loadUpdated store seqs) n rt hrt ha
      rw [heq]
      rcases hpu : processUpdates lc bucket rcs
          ((loadDeleted store seqs).foldl storeDelete store)
          (loadUpdated store seqs) with ⟨st2, e2⟩
      rw [hpu] at hskip
      cases e2 with
      | none => exact hskip.trans hfold
      | some e3 => exact hskip.trans hfold
    · intro hfine
      have hnone := processUpdates_ok_of_all_fine lc bucket rcs
        ((loadDeleted store seqs).foldl storeDelete store)
        (loadUpdated store seqs) hfine
      have hpu : processUpdates lc bucket rcs
          ((loadDeleted store seqs).foldl storeDelete store)
          (loadUpdated store seqs) =
          ((processUpdates lc bucket rcs
            ((loadDeleted store seqs).foldl storeDelete store)
            (loadUpdated store seqs)).1, none) := by
        rw [← hnone]
      refine ⟨configRespOf v (processUpdates lc bucket rcs
        ((loadDeleted store seqs).foldl storeDelete store)
        (loadUpdated store seqs)).1, ?_⟩
      rw [heq, hpu]

theorem load_runtime_metadata_handling_witness :
    ∃ msg, (ConfigMapLoader_Load cmMissingMeta lcNull "v".data [] false).1 =
      .error (.err msg) :=
  (load_runtime_metadata_handling cmMissingMeta lcNull "v".data [] false
    [("miss".data, "1".data)] "b".data [] "miss".data "1".data
    rfl rfl rfl (by decide)).1 rfl

theorem seqsLoop_mem (read : List Char → ReadResult)
    (l : List RuntimeConfig) (m : List (List Char × List Char))
    (hok : seqsLoop read l = .ok m) (n s : List Char)
    (hmem : (n, s) ∈ m) :
    read (pathJoin [n, "seq".data]) = .content s := by
  induction l generalizing m with
  | nil =>
    cases hok
    cases hmem
  | cons r rest ih =>
    rw [seqsLoop] at hok
    cases hr : read (pathJoin [r.name, "seq".data]) with
    | notExist =>
      rw [hr] at hok
      exact ih m hok hmem
    | readErr e =>
      rw [hr] at hok
      cases hok
    | content buf =>
      rw [hr] at hok
      cases hrest : seqsLoop read rest with
      | error e =>
        rw [hrest] at hok
        cases hok
      | ok m2 =>
        rw [hrest] at hok
        have hm : m = (r.name, buf) :: m2 := (Except.ok.inj hok).symm
        subst hm
        rcases List.mem_cons.mp hmem with he | hm2
        · have h1 : n = r.name := congrArg Prod.fst he
          have h2 : s = buf := congrArg Prod.snd he
          rw [h1, h2, hr]
        · exact ih m2 hrest hm2

theorem seqsLoop_readErr (read : List Char → ReadResult)
    (l : List RuntimeConfig) (r2 : RuntimeConfig) (e : List Char)
    (hmem : r2 ∈ l)
    (hread : read (pathJoin [r2.name, "seq".data]) = .readErr e) :
    ∃ e2, seqsLoop read l = .error e2 := by
  induction l with
  | nil => cases hmem
  | cons r rest ih =>
    rw [seqsLoop]
    cases hr : read (pathJoin [r.name, "seq".data]) with
    | notExist =>
      rcases List.mem_cons.mp hmem with rfl | hm
      · rw [hread] at hr
        cases hr
      · exact ih hm
    | readErr e3 => exact ⟨e3, rfl⟩
    | content buf =>
      rcases List.mem_cons.mp hmem with rfl | hm
      · rw [hread] at hr
        cases hr
      · obtain ⟨e2, h2⟩ := ih hm
        rw [h2]
        exact ⟨e2, rfl⟩

/-- Claim C10: `ConfigMapBucket.Seqs` silently omits (without an error)
every config-map runtime whose `<runtime>/seq` storage object does not
exist, while any other error reading a seq object fails the whole `Seqs`
call; consequently such a runtime is absent from the fetched token map,
and a `Load` pass over that map deletes its `ConfigStore` entry as if the
runtime had been removed from the map. -/
theorem seqs_missing_object_spec
    (uri : List Char) (cm : ConfigMapProto) (read : List Char → ReadResult)
    (r : RuntimeConfig) (hmem : r ∈ cm.runtimes)
    (hread : read (pathJoin [r.name, "seq".data]) = .notExist) :
    (∀ m, ConfigMapBucket_Seqs uri cm read = .ok m →
      (∀ s, (r.name, s) ∉ m) ∧
      (∀ (cmSrc : ConfigMapSource) lc v force store,
        cmSrc.seqs = .ok m → storeLookup store r.name ≠ none →
        storeLookup (ConfigMapLoader_Load cmSrc lc v store force).2 r.name =
          none)) ∧
    (∀ r2 e, r2 ∈ cm.runtimes →
      read (pathJoin [r2.name, "seq".data]) = .readErr e →
      ∃ e2, ConfigMapBucket_Seqs uri cm read = .error e2) := by
  constructor
  · intro m hok
    have hloop : seqsLoop read cm.runtimes = .ok m := by
      rw [ConfigMapBucket_Seqs] at hok
      cases hsp : splitGCSPath uri with
      | error e =>
        rw [hsp] at hok
        cases hok
      | ok bk =>
        rw [hsp] at hok
        exact hok
    have hnot : ∀ s, (r.name, s) ∉ m := by
      intro s hc
      have h2 := seqsLoop_mem read cm.runtimes m hloop r.name s hc
      rw [hread] at h2
      cases h2
    refine ⟨hnot, ?_⟩
    intro cmSrc lc v force store hseqs hne
    apply load_deleted_lookup_none cmSrc lc v force store m r.name hseqs
    rw [mem_loadDeleted_iff]
    refine ⟨?_, ?_⟩
    · by_contra hc
      exact hne ((storeLookup_eq_none_iff store r.name).mpr hc)
    · intro hc
      obtain ⟨e2, he2, he1⟩ := List.mem_map.mp hc
      apply hnot e2.2
      have he3 : e2 = (r.name, e2.2) := by
        rw [← he1]
      rw [← he3]
      exact he2
  · intro r2 e hmem2 hread2
    cases hsp : splitGCSPath uri with
    | error e3 =>
      refine ⟨e3, ?_⟩
      rw [ConfigMapBucket_Seqs, hsp]
    | ok bk =>
      obtain ⟨e2, h2⟩ := seqsLoop_readErr read cm.runtimes r2 e hmem2 hread2
      refine ⟨e2, ?_⟩
      rw [ConfigMapBucket_Seqs, hsp, h2]

theorem seqs_missing_object_witness :
    storeLookup (ConfigMapLoader_Load cmSrcMissing lcNull "v".data storeDead
      false).2 "dead".data = none :=
  ((seqs_missing_object_spec "gs://b/".data cmProtoTwo readOracle rtDead
      (by decide) rfl).1 [("alive".data, "7".data)] rfl).2 cmSrcMissing
    lcNull "v".data false storeDead rfl (by decide)

end GomaCommand
